import Mathlib

/-!
Shallow embedding of the task-scheduler core of
`chromeos/message_loops/base_message_loop.cc` and of the durable-write
utilities of `brillo/file_utils.cc`, with theorems checking the
natural-language specification against the code.
-/

/-! ## Generic association-list helpers

`std::map` keyed lookup / erase / insert are modelled on association
lists.  `std::map` keys are unique, so erasing every entry with the key
coincides with `std::map::erase`. -/

def lookupKey {κ α : Type} [DecidableEq κ] (m : List (κ × α)) (k : κ) : Option α :=
  match m with
  | [] => none
  | (k2, v) :: rest => if k2 = k then some v else lookupKey rest k

def eraseKey {κ α : Type} [DecidableEq κ] (m : List (κ × α)) (k : κ) : List (κ × α) :=
  match m with
  | [] => []
  | (k2, v) :: rest => if k2 = k then eraseKey rest k else (k2, v) :: eraseKey rest k

/-- `std::map::emplace`: inserts only when the key is absent. -/
def emplaceKey {κ α : Type} [DecidableEq κ] (m : List (κ × α)) (k : κ) (v : α) :
    List (κ × α) :=
  match lookupKey m k with
  | some _ => m
  | none => m ++ [(k, v)]

namespace BaseMessageLoop

/-- `MessageLoop::kTaskIdNull`: the sentinel "no task" id. -/
def kTaskIdNull : Nat := 0

/-- A scheduler callback is modelled as a list of scheduler actions it
performs when run; `cancel id` models a call to `CancelTask(id)` made
from inside the callback.  An empty list is a callback that does
nothing. -/
inductive Action where
  | cancel (id : Nat) : Action
deriving DecidableEq

/-- `base::Closure` contents, for a non-null closure.  Nullability is
modelled with `Option` where the code checks `is_null()`. -/
abbrev Closure := List Action

/-- `BaseMessageLoop::DelayedTask`: location (diagnostic), task id and a
nullable closure. -/
structure DelayedTask where
  location : String
  taskId : Nat
  closure : Option Closure
deriving DecidableEq

/-- `BaseMessageLoop::IOTask`: location, task id, persistence flag and
closure.  The `loop_` back pointer is the threaded `LoopState` itself and
the `fd_watcher_` subscription is alive exactly while the record is in
the store. -/
structure IOTask where
  location : String
  taskId : Nat
  persistent : Bool
  closure : Closure
deriving DecidableEq

/-- The scheduler state: `last_id_`, `delayed_tasks_`, `io_tasks_`,
`run_once_`, plus the underlying loop's pending `QuitNow` request and a
ghost log of the boolean results that `CancelTask` returned to callbacks
(observation only; it influences nothing). -/
structure LoopState where
  lastId : Nat
  delayedTasks : List (Nat × DelayedTask)
  ioTasks : List (Nat × IOTask)
  runOnce : Bool
  quit : Bool
  cancelLog : List Bool
deriving DecidableEq

/-- Clearing the stored closure of a delayed task (the
`delayed_task_it->second.closure = Closure()` statements). -/
def clearClosure (m : List (Nat × DelayedTask)) (k : Nat) : List (Nat × DelayedTask) :=
  match m with
  | [] => []
  | (k2, dt) :: rest =>
    if k2 = k then (k2, { dt with closure := none }) :: clearClosure rest k
    else (k2, dt) :: clearClosure rest k

/-- `BaseMessageLoop::CancelTask`. -/
def cancelTask (s : LoopState) (task_id : Nat) : Bool × LoopState :=
  if task_id = kTaskIdNull then (false, s)
  else
    match lookupKey s.delayedTasks task_id with
    | none =>
      -- This might be an IOTask then.
      match lookupKey s.ioTasks task_id with
      | none => (false, s)
      | some _ =>
        -- Destroying the FileDescriptorWatcher implicitly stops watching.
        (true, { s with ioTasks := eraseKey s.ioTasks task_id })
    | some dt =>
      match dt.closure with
      | none => (false, s)
      | some _ =>
        (true, { s with delayedTasks := clearClosure s.delayedTasks task_id })

/-- Runs a callback: performs each action in order, appending every
`CancelTask` result to the ghost log. -/
def runActions (s : LoopState) (acts : List Action) : LoopState :=
  match acts with
  | [] => s
  | Action.cancel id :: rest =>
    let r := cancelTask s id
    runActions { r.2 with cancelLog := r.2.cancelLog ++ [r.1] } rest

/-- `MessageLoop::TaskId` is an unsigned 64-bit integer; `++last_id_`
wraps modulo `2 ^ 64`. -/
def idSpace : Nat := 2 ^ 64

/-- The body of `BaseMessageLoop::NextTaskId`'s do/while loop, with
explicit fuel (the C++ loop runs until it finds a free id; `none` means
the fuel ran out, which the callers' chosen fuel makes unreachable for
realistic stores). -/
def nextTaskIdGo (fuel : Nat) (last : Nat) (delayed : List (Nat × DelayedTask))
    (io : List (Nat × IOTask)) : Option Nat :=
  match fuel with
  | 0 => none
  | fuel + 1 =>
    let res := (last + 1) % idSpace
    if res ≠ 0 ∧ lookupKey delayed res = none ∧ lookupKey io res = none then some res
    else nextTaskIdGo fuel res delayed io

/-- `BaseMessageLoop::NextTaskId`: returns the fresh id and the state
with `last_id_` advanced. -/
def nextTaskId (s : LoopState) : Option (Nat × LoopState) :=
  match nextTaskIdGo (s.delayedTasks.length + s.ioTasks.length + 2) s.lastId
      s.delayedTasks s.ioTasks with
  | none => none
  | some res => some (res, { s with lastId := res })

/-- `BaseMessageLoop::PostDelayedTask`.  `base_scheduled` is the outcome
of handing the timer callback to the underlying
`base_loop_->task_runner()->PostDelayedTask` (an external collaborator).
Note the id is allocated before that call, so `last_id_` advances even
on rejection; the stores do not. -/
def postDelayedTask (s : LoopState) (from_here : String) (task : Closure)
    (base_scheduled : Bool) : Option (Nat × LoopState) :=
  match nextTaskId s with
  | none => none
  | some (task_id, s1) =>
    if ¬ base_scheduled then some (kTaskIdNull, s1)
    else
      let rec2 : DelayedTask := ⟨from_here, task_id, some task⟩
      some (task_id, { s1 with delayedTasks := emplaceKey s1.delayedTasks task_id rec2 })

/-- `MessageLoop::WatchMode`.  The header is not part of the sources
here; the switch in `WatchFileDescriptor` handles `kWatchRead`,
`kWatchWrite` and a `default:` branch for any other enum value, which
`other` stands for. -/
inductive WatchMode where
  | kWatchRead
  | kWatchWrite
  | other
deriving DecidableEq

/-- `BaseMessageLoop::WatchFileDescriptor`.  `scheduled` is the outcome
of `base_loop_->WatchFileDescriptor` (the readiness primitive, an
external collaborator).  The record is emplaced before that call and
erased again if the subscription is refused. -/
def watchFileDescriptor (s : LoopState) (from_here : String) (fd : Int)
    (mode : WatchMode) (persistent : Bool) (task : Closure)
    (scheduled : Bool) : Option (Nat × LoopState) :=
  if fd < 0 then some (kTaskIdNull, s)
  else if mode = WatchMode.other then some (kTaskIdNull, s)
  else
    match nextTaskId s with
    | none => none
    | some (task_id, s1) =>
      let rec2 : IOTask := ⟨from_here, task_id, persistent, task⟩
      let s2 := { s1 with ioTasks := emplaceKey s1.ioTasks task_id rec2 }
      if ¬ scheduled then
        some (kTaskIdNull, { s2 with ioTasks := eraseKey s2.ioTasks task_id })
      else some (task_id, s2)

/-- `BaseMessageLoop::OnRanPostedTask`: consumes the timer notification
for `task_id`.  The record is always present when the timer fires (the
code `DCHECK`s it); an absent record leaves the state unchanged. -/
def onRanPostedTask (s : LoopState) (task_id : Nat) : LoopState :=
  match lookupKey s.delayedTasks task_id with
  | none => s
  | some dt =>
    match dt.closure with
    | none => { s with delayedTasks := eraseKey s.delayedTasks task_id }
    | some closure =>
      -- Mark the task as canceled while we are running it so CancelTask
      -- returns false.
      let s1 := { s with delayedTasks := clearClosure s.delayedTasks task_id }
      let s2 := runActions s1 closure
      let s3 := if s2.runOnce then { s2 with runOnce := false, quit := true } else s2
      { s3 with delayedTasks := eraseKey s3.delayedTasks task_id }

/-- `BaseMessageLoop::IOTask::OnFileReady`: dispatch of a readiness
event for the watch bound to `task_id`.  The watcher object exists only
while the record is in `io_tasks_`, so an absent record means no
dispatch happens at all. -/
def onFileReady (s : LoopState) (task_id : Nat) : LoopState :=
  match lookupKey s.ioTasks task_id with
  | none => s
  | some io =>
    let s2 :=
      if io.persistent then
        -- In the persistent case we just run the callback.
        runActions s io.closure
      else
        -- Extract the closure, erase the record (destroying the watcher),
        -- and only then run the local copy.
        let closure_copy := io.closure
        let s1 := { s with ioTasks := eraseKey s.ioTasks task_id }
        runActions s1 closure_copy
    if s2.runOnce then { s2 with runOnce := false, quit := true } else s2

/-- A notification delivered by the underlying `base::MessageLoopForIO`:
a timer firing or a descriptor becoming ready. -/
inductive Event where
  | timerFired (task_id : Nat)
  | fdReady (task_id : Nat)
deriving DecidableEq

def dispatchEvent (s : LoopState) (e : Event) : LoopState :=
  match e with
  | Event.timerFired id => onRanPostedTask s id
  | Event.fdReady id => onFileReady s id

/-- One drive of the underlying loop (`Run` or `RunUntilIdle`): the
delivered notifications are processed in order until `QuitNow` is
requested; returning from the drive consumes the quit request. -/
def runEvents (s : LoopState) (events : List Event) : LoopState :=
  match events with
  | [] => s
  | e :: rest =>
    let s1 := dispatchEvent s e
    if s1.quit then { s1 with quit := false } else runEvents s1 rest

/-- `BaseMessageLoop::RunOnce`.  `may_block` selects `Run` versus
`RunUntilIdle` in the code; both process the notifications the underlying
loop delivers (`events`), differing only in whether they block waiting
for one, which a pure model abstracts into the delivered list. -/
def runOnce (s : LoopState) (may_block : Bool) (events : List Event) :
    Bool × LoopState :=
  let s1 := runEvents { s with runOnce := true } events
  -- If the flag was reset to false, it means a closure was run.
  if ¬ s1.runOnce then (true, s1)
  else (false, { s1 with runOnce := false })

end BaseMessageLoop

namespace FileUtils

/-- Byte sequences (file contents). -/
abbrev Bytes := List Nat

/-- A filesystem entity at a path: a regular file (owner uid/gid, mode
bits, contents), a directory, or a symbolic link.  `openat` with
`O_NOFOLLOW` fails with `ELOOP` on a symlink, so link targets are never
dereferenced by the code under study. -/
inductive Entity where
  | regular (uid gid : Nat) (mode : Nat) (content : Bytes)
  | directory
  | symlink (target : String)
deriving DecidableEq

/-- The filesystem: a map from path to the entity stored there. -/
abbrev FileSystem := List (String × Entity)

/-- Binds `p` to `e`, replacing whatever was there. -/
def setFile (fs : FileSystem) (p : String) (e : Entity) : FileSystem :=
  eraseKey fs p ++ [(p, e)]

/-- Outcomes of the syscalls `WriteToFileAtomic` performs, supplied by
the environment: whether the destination directory exists /
`base::CreateDirectory` succeeds, the `GetRandomSuffix` result, whether
the exclusive `open` of the temp file succeeds (beyond the modelled
existence check), the byte counts the successive `write` calls return
(negative means error), and the `fdatasync` / `close` / `rename`
outcomes.  `euid`/`egid` is the identity of the calling process, which
owns any file it creates. -/
structure AtomicEnv where
  dirExists : Bool
  createDirOk : Bool
  randomSuffix : String
  openOk : Bool
  writeResults : List Int
  syncOk : Bool
  closeOk : Bool
  renameOk : Bool
  euid : Nat
  egid : Nat
deriving DecidableEq

/-- Outcome of the `while (position < size)` write loop. -/
inductive WriteOutcome where
  | done (written : Nat)
  | failed (written : Nat)
deriving DecidableEq

/-- The write loop of `WriteToFileAtomic`: consumes one oracle entry per
`write` call; a negative return aborts; the loop ends when `position`
reaches `size`.  `none` means the oracle was exhausted while the C++
loop would still be calling `write`. -/
def writeLoop (size : Nat) : Nat → List Int → Option WriteOutcome
  | position, [] =>
    if size ≤ position then some (WriteOutcome.done position) else none
  | position, r :: rest =>
    if size ≤ position then some (WriteOutcome.done position)
    else if r < 0 then some (WriteOutcome.failed position)
    else writeLoop size (position + r.toNat) rest

/-- `brillo::WriteToFileAtomic`: create `path.AddExtension(suffix)`
exclusively, write all of `data` into it, `fdatasync`, `close`, then
`rename` it over `path`; every failure path unlinks the temp file.
Returns `none` only when the write-loop oracle is exhausted. -/
def writeToFileAtomic (fs : FileSystem) (path : String) (data : Bytes)
    (mode : Nat) (env : AtomicEnv) : Option (Bool × FileSystem) :=
  if ¬ env.dirExists ∧ ¬ env.createDirOk then some (false, fs)
  else if env.randomSuffix = "" then some (false, fs)
  else
    let temp_name := path ++ "." ++ env.randomSuffix
    if lookupKey fs temp_name ≠ none ∨ ¬ env.openOk then
      -- open(O_CREAT | O_EXCL) failed; the code unlinks temp_name.
      some (false, eraseKey fs temp_name)
    else
      match writeLoop data.length 0 env.writeResults with
      | none => none
      | some (WriteOutcome.failed _) => some (false, eraseKey fs temp_name)
      | some (WriteOutcome.done written) =>
        -- The temp file now holds the written prefix of data.
        let tmp := Entity.regular env.euid env.egid mode (data.take written)
        let fs2 := setFile fs temp_name tmp
        if ¬ env.syncOk then some (false, eraseKey fs2 temp_name)
        else if ¬ env.closeOk then some (false, eraseKey fs2 temp_name)
        else if ¬ env.renameOk then some (false, eraseKey fs2 temp_name)
        else some (true, setFile (eraseKey fs2 temp_name) path tmp)

/-- Syscall outcomes for `TouchFile`: whether `base::DeleteFile`,
`base::CreateDirectory`, the exclusive `openat` and `fchmod` succeed,
and the calling process identity (owner of any created file). -/
structure TouchEnv where
  deleteOk : Bool
  createDirOk : Bool
  openOk : Bool
  chmodOk : Bool
  euid : Nat
  egid : Nat
deriving DecidableEq

inductive RegularFileOrDeleteResult where
  | kFailure
  | kRegularFile
  | kEmpty
deriving DecidableEq

/-- `kPermissions600 = S_IRUSR | S_IWUSR`. -/
def kPermissions600 : Nat := 0o600

/-- `kPermissions777 = S_IRWXU | S_IRWXG | S_IRWXO`. -/
def kPermissions777 : Nat := 0o777

/-- `brillo::RegularFileOrDelete`: `openat` with `O_NOFOLLOW` gives
`ELOOP` on a symlink (path not empty, no fd) and `ENOENT` when nothing
is there; an opened entity is `fstat`ed and kept only if it is a regular
file owned by `uid`/`gid`; anything else present is deleted. -/
def regularFileOrDelete (fs : FileSystem) (path : String) (uid gid : Nat)
    (env : TouchEnv) : RegularFileOrDeleteResult × FileSystem :=
  match lookupKey fs path with
  | none => (RegularFileOrDeleteResult.kEmpty, fs)
  | some (Entity.regular u g _ _) =>
    if u = uid ∧ g = gid then (RegularFileOrDeleteResult.kRegularFile, fs)
    else if env.deleteOk then (RegularFileOrDeleteResult.kEmpty, eraseKey fs path)
    else (RegularFileOrDeleteResult.kFailure, fs)
  | some _ =>
    -- A directory or symlink: delete it (a symlink is itself removed,
    -- its target untouched).
    if env.deleteOk then (RegularFileOrDeleteResult.kEmpty, eraseKey fs path)
    else (RegularFileOrDeleteResult.kFailure, fs)

/-- `brillo::TouchFileInternal`: the third component tells whether a new
file was created (the case in which `fd_out` receives the descriptor).
A created file is owned by the calling process and starts as owner-only
(`kPermissions600`), empty. -/
def touchFileInternal (fs : FileSystem) (path : String) (uid gid : Nat)
    (env : TouchEnv) : Bool × FileSystem × Bool :=
  match regularFileOrDelete fs path uid gid env with
  | (RegularFileOrDeleteResult.kFailure, fs1) => (false, fs1, false)
  | (RegularFileOrDeleteResult.kRegularFile, fs1) => (true, fs1, false)
  | (RegularFileOrDeleteResult.kEmpty, fs1) =>
    if ¬ env.createDirOk then (false, fs1, false)
    else if ¬ env.openOk then (false, fs1, false)
    else (true, setFile fs1 path
      (Entity.regular env.euid env.egid kPermissions600 []), true)

/-- `fchmod` on the (regular) file at `p`. -/
def chmodFile (fs : FileSystem) (p : String) (m : Nat) : FileSystem :=
  match fs with
  | [] => []
  | (q, e) :: rest =>
    if q = p then
      (q, match e with
          | Entity.regular u g _ c => Entity.regular u g m c
          | e2 => e2) :: chmodFile rest p m
    else (q, e) :: chmodFile rest p m

/-- `brillo::TouchFile(path, new_file_permissions, uid, gid)`: rejects
permission bits outside `0o777` (`perms & ~kPermissions777` is nonzero
exactly when `kPermissions777 < perms`), delegates to
`TouchFileInternal`, and `fchmod`s only a newly created file (deleting
it when `fchmod` fails). -/
def touchFile (fs : FileSystem) (path : String) (new_file_permissions : Nat)
    (uid gid : Nat) (env : TouchEnv) : Bool × FileSystem :=
  if kPermissions777 < new_file_permissions then (false, fs)
  else
    match touchFileInternal fs path uid gid env with
    | (false, fs1, _) => (false, fs1)
    | (true, fs1, created) =>
      if created then
        if ¬ env.chmodOk then (false, eraseKey fs1 path)
        else (true, chmodFile fs1 path new_file_permissions)
      else (true, fs1)

end FileUtils

/-! ## Concrete sample states, used to instantiate the theorems -/

namespace BaseMessageLoop

/-- A one-shot watch record (id 1) whose callback cancels its own id. -/
def sampleOneShotTask : IOTask :=
  { location := "watch", taskId := 1, persistent := false, closure := [Action.cancel 1] }

def sampleOneShotState : LoopState :=
  { lastId := 1, delayedTasks := [], ioTasks := [(1, sampleOneShotTask)],
    runOnce := false, quit := false, cancelLog := [] }

/-- A persistent watch record (id 1) with a do-nothing callback. -/
def samplePersistentTask : IOTask :=
  { location := "watch", taskId := 1, persistent := true, closure := [] }

def samplePersistentState : LoopState :=
  { lastId := 1, delayedTasks := [], ioTasks := [(1, samplePersistentTask)],
    runOnce := false, quit := false, cancelLog := [] }

/-- A delayed-task record (id 1) whose callback cancels its own id. -/
def sampleDelayed : DelayedTask :=
  { location := "delay", taskId := 1, closure := some [Action.cancel 1] }

def sampleDelayedState : LoopState :=
  { lastId := 1, delayedTasks := [(1, sampleDelayed)], ioTasks := [],
    runOnce := false, quit := false, cancelLog := [] }

/-- The empty scheduler state. -/
def emptyState : LoopState :=
  { lastId := 0, delayedTasks := [], ioTasks := [],
    runOnce := false, quit := false, cancelLog := [] }

/-- A persistent watch record (id 2) with a do-nothing callback. -/
def sampleRunTask : IOTask :=
  { location := "watch", taskId := 2, persistent := true, closure := [] }

/-- A state inside `RunOnce`: the run-once flag is set and both a
delayed task (id 1) and a watch (id 2) are live. -/
def sampleRunState : LoopState :=
  { lastId := 2, delayedTasks := [(1, sampleDelayed)], ioTasks := [(2, sampleRunTask)],
    runOnce := true, quit := false, cancelLog := [] }

/-- The "at most one live record per id" uniqueness invariant: the keys
of each store are unique and no id is bound in both stores at once. -/
def StoreInv (s : LoopState) : Prop :=
  (s.delayedTasks.map Prod.fst).Nodup ∧ (s.ioTasks.map Prod.fst).Nodup ∧
  ∀ k ∈ s.delayedTasks.map Prod.fst, lookupKey s.ioTasks k = none

end BaseMessageLoop

namespace FileUtils

/-- An all-succeeding syscall environment for `WriteToFileAtomic`,
running as uid/gid 0 with a one-shot full write. -/
def sampleAtomicEnv : AtomicEnv :=
  { dirExists := true, createDirOk := true, randomSuffix := "abcdef",
    openOk := true, writeResults := [3], syncOk := true, closeOk := true,
    renameOk := true, euid := 0, egid := 0 }

/-- An all-succeeding syscall environment for `TouchFile`, running as
uid/gid 0. -/
def sampleTouchEnv : TouchEnv :=
  { deleteOk := true, createDirOk := true, openOk := true, chmodOk := true,
    euid := 0, egid := 0 }

end FileUtils

/-! ## Association-list lemmas -/

theorem lookupKey_eraseKey_self {κ α : Type} [DecidableEq κ]
    (m : List (κ × α)) (k : κ) : lookupKey (eraseKey m k) k = none := by
  induction m with
  | nil => rfl
  | cons p rest ih =>
    obtain ⟨k2, v⟩ := p
    by_cases h : k2 = k
    · simp [eraseKey, h, ih]
    · simp [eraseKey, lookupKey, h, ih]

theorem lookupKey_eraseKey_ne {κ α : Type} [DecidableEq κ]
    (m : List (κ × α)) (k k2 : κ) (h : k ≠ k2) :
    lookupKey (eraseKey m k) k2 = lookupKey m k2 := by
  induction m with
  | nil => rfl
  | cons p rest ih =>
    obtain ⟨k3, v⟩ := p
    by_cases h3 : k3 = k
    · subst h3
      simp [eraseKey, lookupKey, h, ih]
    · by_cases h4 : k3 = k2 <;> simp [eraseKey, lookupKey, h3, h4, ih, Ne.symm h]

theorem lookupKey_eq_none_iff {κ α : Type} [DecidableEq κ]
    (m : List (κ × α)) (k : κ) :
    lookupKey m k = none ↔ k ∉ m.map Prod.fst := by
  induction m with
  | nil => simp [lookupKey]
  | cons p rest ih =>
    obtain ⟨k2, v⟩ := p
    by_cases h : k2 = k
    · simp [lookupKey, h]
    · simp [lookupKey, h, ih, Ne.symm h]

theorem eraseKey_of_lookupKey_none {κ α : Type} [DecidableEq κ]
    (m : List (κ × α)) (k : κ) (h : lookupKey m k = none) :
    eraseKey m k = m := by
  induction m with
  | nil => rfl
  | cons p rest ih =>
    obtain ⟨k2, v⟩ := p
    by_cases h2 : k2 = k
    · simp [lookupKey, h2] at h
    · simp only [lookupKey, if_neg h2] at h
      simp [eraseKey, h2, ih h]

theorem lookupKey_append_self {κ α : Type} [DecidableEq κ]
    (m : List (κ × α)) (k : κ) (v : α) (h : lookupKey m k = none) :
    lookupKey (m ++ [(k, v)]) k = some v := by
  induction m with
  | nil => simp [lookupKey]
  | cons p rest ih =>
    obtain ⟨k2, w⟩ := p
    by_cases h2 : k2 = k
    · simp [lookupKey, h2] at h
    · simp only [lookupKey, if_neg h2] at h
      simp [lookupKey, h2, ih h]

theorem lookupKey_append_ne {κ α : Type} [DecidableEq κ]
    (m : List (κ × α)) (k k2 : κ) (v : α) (h : k ≠ k2) :
    lookupKey (m ++ [(k, v)]) k2 = lookupKey m k2 := by
  induction m with
  | nil => simp [lookupKey, h]
  | cons p rest ih =>
    obtain ⟨k3, w⟩ := p
    by_cases h3 : k3 = k2 <;> simp [lookupKey, h3, ih]

theorem lookupKey_setFile_self (fs : FileUtils.FileSystem) (p : String)
    (e : FileUtils.Entity) : lookupKey (FileUtils.setFile fs p e) p = some e :=
  lookupKey_append_self _ _ _ (lookupKey_eraseKey_self fs p)

theorem lookupKey_setFile_ne (fs : FileUtils.FileSystem) (p q : String)
    (e : FileUtils.Entity) (h : p ≠ q) :
    lookupKey (FileUtils.setFile fs p e) q = lookupKey fs q := by
  unfold FileUtils.setFile
  rw [lookupKey_append_ne _ _ _ _ h, lookupKey_eraseKey_ne _ _ _ h]

theorem lookupKey_eraseKey_none {κ α : Type} [DecidableEq κ]
    (m : List (κ × α)) (j k : κ) (h : lookupKey m k = none) :
    lookupKey (eraseKey m j) k = none := by
  rcases eq_or_ne j k with rfl | hne
  · exact lookupKey_eraseKey_self m j
  · rw [lookupKey_eraseKey_ne m j k hne]; exact h

namespace BaseMessageLoop

theorem lookupKey_clearClosure_self (m : List (Nat × DelayedTask)) (k : Nat) :
    lookupKey (clearClosure m k) k
      = Option.map (fun dt => { dt with closure := none }) (lookupKey m k) := by
  induction m with
  | nil => rfl
  | cons p rest ih =>
    obtain ⟨k2, dt⟩ := p
    by_cases h : k2 = k <;> simp [clearClosure, lookupKey, h, ih]

theorem lookupKey_clearClosure_ne (m : List (Nat × DelayedTask)) (k k2 : Nat)
    (h : k ≠ k2) : lookupKey (clearClosure m k) k2 = lookupKey m k2 := by
  induction m with
  | nil => rfl
  | cons p rest ih =>
    obtain ⟨k3, dt⟩ := p
    by_cases h3 : k3 = k
    · subst h3
      simp [clearClosure, lookupKey, h, ih]
    · by_cases h4 : k3 = k2 <;> simp [clearClosure, lookupKey, h3, h4, ih, Ne.symm h]

theorem lookupKey_clearClosure_none (m : List (Nat × DelayedTask)) (j k : Nat)
    (h : lookupKey m k = none) : lookupKey (clearClosure m j) k = none := by
  rcases eq_or_ne j k with rfl | hne
  · rw [lookupKey_clearClosure_self]; simp [h]
  · rw [lookupKey_clearClosure_ne _ _ _ hne]; exact h

/-- `CancelTask` touches only the two stores: the run-once flag, the
quit request, the ghost log and `last_id_` are untouched. -/
theorem cancelTask_state (s : LoopState) (id : Nat) :
    (cancelTask s id).2.runOnce = s.runOnce ∧ (cancelTask s id).2.quit = s.quit ∧
    (cancelTask s id).2.cancelLog = s.cancelLog ∧
    (cancelTask s id).2.lastId = s.lastId := by
  unfold cancelTask
  repeat' split
  all_goals simp

theorem runActions_state (acts : List Action) (s : LoopState) :
    (runActions s acts).runOnce = s.runOnce ∧ (runActions s acts).quit = s.quit ∧
    (runActions s acts).lastId = s.lastId := by
  induction acts generalizing s with
  | nil => exact ⟨rfl, rfl, rfl⟩
  | cons a rest ih =>
    obtain ⟨id⟩ := a
    simp only [runActions]
    obtain ⟨h1, h2, h3, h4⟩ := cancelTask_state s id
    obtain ⟨g1, g2, g3⟩ := ih
      { (cancelTask s id).2 with cancelLog := (cancelTask s id).2.cancelLog ++ [(cancelTask s id).1] }
    refine ⟨?_, ?_, ?_⟩ <;> simp_all

/-- A callback can never create an io-task record: if an id is absent
from `io_tasks_` before `CancelTask`, it is absent after. -/
theorem cancelTask_io_none (s : LoopState) (j k : Nat)
    (h : lookupKey s.ioTasks k = none) :
    lookupKey (cancelTask s j).2.ioTasks k = none := by
  unfold cancelTask
  repeat' split
  all_goals simp_all [lookupKey_eraseKey_none]

theorem runActions_io_none (acts : List Action) (s : LoopState) (k : Nat)
    (h : lookupKey s.ioTasks k = none) :
    lookupKey (runActions s acts).ioTasks k = none := by
  induction acts generalizing s with
  | nil => exact h
  | cons a rest ih =>
    obtain ⟨id⟩ := a
    simp only [runActions]
    exact ih _ (cancelTask_io_none s id k h)

/-- A callback can never create a delayed-task record either. -/
theorem cancelTask_delayed_none (s : LoopState) (j k : Nat)
    (h : lookupKey s.delayedTasks k = none) :
    lookupKey (cancelTask s j).2.delayedTasks k = none := by
  unfold cancelTask
  repeat' split
  all_goals simp_all [lookupKey_clearClosure_none]

theorem runActions_delayed_none (acts : List Action) (s : LoopState) (k : Nat)
    (h : lookupKey s.delayedTasks k = none) :
    lookupKey (runActions s acts).delayedTasks k = none := by
  induction acts generalizing s with
  | nil => exact h
  | cons a rest ih =>
    obtain ⟨id⟩ := a
    simp only [runActions]
    exact ih _ (cancelTask_delayed_none s id k h)

/-- Cancelling a different id leaves a watch record in place. -/
theorem cancelTask_io_keep (s : LoopState) (j id : Nat) (io : IOTask)
    (hne : j ≠ id) (h : lookupKey s.ioTasks id = some io) :
    lookupKey (cancelTask s j).2.ioTasks id = some io := by
  unfold cancelTask
  repeat' split
  all_goals simp_all [lookupKey_eraseKey_ne _ _ _ hne]

theorem runActions_io_keep (acts : List Action) (s : LoopState) (id : Nat)
    (io : IOTask) (hacts : ∀ j, Action.cancel j ∈ acts → j ≠ id)
    (h : lookupKey s.ioTasks id = some io) :
    lookupKey (runActions s acts).ioTasks id = some io := by
  induction acts generalizing s with
  | nil => exact h
  | cons a rest ih =>
    obtain ⟨j⟩ := a
    simp only [runActions]
    refine ih _ (fun j2 hj2 => hacts j2 (List.mem_cons_of_mem _ hj2)) ?_
    exact cancelTask_io_keep s j id io (hacts j (List.mem_cons_self _ _)) h

end BaseMessageLoop

namespace BaseMessageLoop

theorem onFileReady_not_found (s : LoopState) (id : Nat)
    (h : lookupKey s.ioTasks id = none) : onFileReady s id = s := by
  unfold onFileReady
  rw [h]

theorem onFileReady_oneShot_eq (s : LoopState) (id : Nat) (io : IOTask)
    (hio : lookupKey s.ioTasks id = some io) (hpers : io.persistent = false) :
    onFileReady s id =
      (let s2 := runActions { s with ioTasks := eraseKey s.ioTasks id } io.closure
       if s2.runOnce then { s2 with runOnce := false, quit := true } else s2) := by
  unfold onFileReady
  rw [hio]
  simp [hpers]

theorem onFileReady_persistent_eq (s : LoopState) (id : Nat) (io : IOTask)
    (hio : lookupKey s.ioTasks id = some io) (hpers : io.persistent = true) :
    onFileReady s id =
      (let s2 := runActions s io.closure
       if s2.runOnce then { s2 with runOnce := false, quit := true } else s2) := by
  unfold onFileReady
  rw [hio]
  simp [hpers]

theorem onRanPostedTask_null_eq (s : LoopState) (id : Nat) (dt : DelayedTask)
    (h : lookupKey s.delayedTasks id = some dt) (hc : dt.closure = none) :
    onRanPostedTask s id = { s with delayedTasks := eraseKey s.delayedTasks id } := by
  unfold onRanPostedTask
  rw [h]
  simp [hc]

theorem onRanPostedTask_some_eq (s : LoopState) (id : Nat) (dt : DelayedTask)
    (closure : Closure) (h : lookupKey s.delayedTasks id = some dt)
    (hc : dt.closure = some closure) :
    onRanPostedTask s id =
      (let s2 := runActions { s with delayedTasks := clearClosure s.delayedTasks id } closure
       let s3 := if s2.runOnce then { s2 with runOnce := false, quit := true } else s2
       { s3 with delayedTasks := eraseKey s3.delayedTasks id }) := by
  unfold onRanPostedTask
  rw [h]
  simp [hc]

theorem cancelTask_not_found (s : LoopState) (id : Nat)
    (hd : lookupKey s.delayedTasks id = none)
    (hio : lookupKey s.ioTasks id = none) :
    cancelTask s id = (false, s) := by
  unfold cancelTask
  rcases eq_or_ne id kTaskIdNull with rfl | h0
  · simp
  · simp [h0, hd, hio]

theorem cancelTask_delayed_null (s : LoopState) (id : Nat) (dt : DelayedTask)
    (hd : lookupKey s.delayedTasks id = some dt) (hc : dt.closure = none) :
    cancelTask s id = (false, s) := by
  unfold cancelTask
  rcases eq_or_ne id kTaskIdNull with rfl | h0
  · simp
  · simp [h0, hd, hc]

theorem runActions_single (s : LoopState) (id : Nat) :
    runActions s [Action.cancel id] =
      { (cancelTask s id).2 with
        cancelLog := (cancelTask s id).2.cancelLog ++ [(cancelTask s id).1] } := by
  simp [runActions]

end BaseMessageLoop

/-! ## Claim theorems: the scheduler firing and cancellation protocol -/

namespace BaseMessageLoop

/-- **C1**: for a one-shot (non-persistent) descriptor watch, firing
extracts the callback by value and erases the `WatchRecord` (dropping
the readiness subscription) before invoking the callback: afterwards the
record is gone; a `CancelTask` of the same id issued from inside the
callback returns failure; and the watch never fires again — a second
readiness dispatch for the same id is a no-op — even if the descriptor
remains ready. -/
theorem C1_oneShot_fire_retires_record_before_invoke
    (s : LoopState) (id : Nat) (io : IOTask)
    (hio : lookupKey s.ioTasks id = some io)
    (hpers : io.persistent = false)
    (hd : lookupKey s.delayedTasks id = none) :
    lookupKey (onFileReady s id).ioTasks id = none ∧
    (io.closure = [Action.cancel id] →
      (onFileReady s id).cancelLog = s.cancelLog ++ [false]) ∧
    onFileReady (onFileReady s id) id = onFileReady s id := by
  have heq := onFileReady_oneShot_eq s id io hio hpers
  have hio1 : lookupKey ({ s with ioTasks := eraseKey s.ioTasks id } : LoopState).ioTasks id
      = none := by
    simpa using lookupKey_eraseKey_self s.ioTasks id
  have h1 : lookupKey (onFileReady s id).ioTasks id = none := by
    rw [heq]
    have h2 := runActions_io_none io.closure { s with ioTasks := eraseKey s.ioTasks id } id hio1
    by_cases hro : (runActions { s with ioTasks := eraseKey s.ioTasks id } io.closure).runOnce <;>
      simp [hro, h2]
  refine ⟨h1, ?_, onFileReady_not_found _ _ h1⟩
  intro hc
  have hcf : cancelTask { s with ioTasks := eraseKey s.ioTasks id } id
      = (false, { s with ioTasks := eraseKey s.ioTasks id }) :=
    cancelTask_not_found _ _ (by simpa using hd) hio1
  rw [heq, hc]
  simp only [runActions_single, hcf]
  split <;> simp

/-- Witness for C1 on a concrete state: one one-shot watch whose
callback cancels its own id. -/
theorem C1_witness :
    lookupKey sampleOneShotState.ioTasks 1 = some sampleOneShotTask ∧
    sampleOneShotTask.persistent = false ∧
    lookupKey sampleOneShotState.delayedTasks 1 = none ∧
    (lookupKey (onFileReady sampleOneShotState 1).ioTasks 1 = none ∧
     (sampleOneShotTask.closure = [Action.cancel 1] →
       (onFileReady sampleOneShotState 1).cancelLog
         = sampleOneShotState.cancelLog ++ [false]) ∧
     onFileReady (onFileReady sampleOneShotState 1) 1 = onFileReady sampleOneShotState 1) :=
  ⟨by decide, by decide, by decide,
    C1_oneShot_fire_retires_record_before_invoke sampleOneShotState 1 sampleOneShotTask
      (by decide) (by decide) (by decide)⟩

/-- **C2**: when the timer notification for a delayed task is consumed,
a non-empty callback is extracted and cleared before being invoked (so a
self-cancel from inside the callback reports failure), and in every case
— callback empty or not — the `DelayedTaskRecord` is removed from the
delayed-task store afterwards. -/
theorem C2_delayed_fire_clears_then_invokes_then_erases
    (s : LoopState) (id : Nat) (dt : DelayedTask)
    (h : lookupKey s.delayedTasks id = some dt) :
    lookupKey (onRanPostedTask s id).delayedTasks id = none ∧
    (dt.closure = some [Action.cancel id] →
      (onRanPostedTask s id).cancelLog = s.cancelLog ++ [false]) ∧
    (dt.closure = none →
      onRanPostedTask s id = { s with delayedTasks := eraseKey s.delayedTasks id }) := by
  refine ⟨?_, ?_, fun hc => onRanPostedTask_null_eq s id dt h hc⟩
  · rcases hc : dt.closure with _ | closure
    · rw [onRanPostedTask_null_eq s id dt h hc]
      exact lookupKey_eraseKey_self _ _
    · rw [onRanPostedTask_some_eq s id dt closure h hc]
      exact lookupKey_eraseKey_self _ _
  · intro hc
    rw [onRanPostedTask_some_eq s id dt _ h hc]
    have hlk : lookupKey (clearClosure s.delayedTasks id) id
        = some { dt with closure := none } := by
      rw [lookupKey_clearClosure_self, h]; rfl
    have hcf : cancelTask { s with delayedTasks := clearClosure s.delayedTasks id } id
        = (false, { s with delayedTasks := clearClosure s.delayedTasks id }) :=
      cancelTask_delayed_null _ id { dt with closure := none } (by simpa using hlk) rfl
    simp only [runActions_single, hcf]
    split <;> simp

/-- Witness for C2 on a concrete state: one delayed task whose callback
cancels its own id. -/
theorem C2_witness :
    lookupKey sampleDelayedState.delayedTasks 1 = some sampleDelayed ∧
    (lookupKey (onRanPostedTask sampleDelayedState 1).delayedTasks 1 = none ∧
     (sampleDelayed.closure = some [Action.cancel 1] →
       (onRanPostedTask sampleDelayedState 1).cancelLog
         = sampleDelayedState.cancelLog ++ [false]) ∧
     (sampleDelayed.closure = none →
       onRanPostedTask sampleDelayedState 1
         = { sampleDelayedState with
             delayedTasks := eraseKey sampleDelayedState.delayedTasks 1 })) :=
  ⟨by decide,
    C2_delayed_fire_clears_then_invokes_then_erases sampleDelayedState 1 sampleDelayed
      (by decide)⟩

end BaseMessageLoop

namespace BaseMessageLoop

/-- **C3**: for an id with no watch record, `CancelTask` succeeds iff a
delayed-task record exists with a non-empty callback (and the id is not
the sentinel); in that case the callback is cleared, a second cancel of
the same id fails (success at most once), and the eventual timer firing
just discards the record without running anything. -/
theorem C3_cancel_delayed_success_iff_and_at_most_once
    (s : LoopState) (id : Nat)
    (hio : lookupKey s.ioTasks id = none) :
    ((cancelTask s id).1 = true ↔
      id ≠ kTaskIdNull ∧
        ∃ dt, lookupKey s.delayedTasks id = some dt ∧ dt.closure ≠ none) ∧
    (∀ dt, lookupKey s.delayedTasks id = some dt → dt.closure ≠ none →
      id ≠ kTaskIdNull →
      lookupKey (cancelTask s id).2.delayedTasks id = some { dt with closure := none } ∧
      (cancelTask (cancelTask s id).2 id).1 = false ∧
      onRanPostedTask (cancelTask s id).2 id =
        { (cancelTask s id).2 with
          delayedTasks := eraseKey (cancelTask s id).2.delayedTasks id }) := by
  constructor
  · unfold cancelTask
    repeat' split
    all_goals simp_all
  · intro dt hdt hc h0
    have hcc : cancelTask s id
        = (true, { s with delayedTasks := clearClosure s.delayedTasks id }) := by
      rcases hcl : dt.closure with _ | c
      · exact absurd hcl hc
      · unfold cancelTask
        simp [h0, hdt, hcl]
    have hlk : lookupKey (cancelTask s id).2.delayedTasks id
        = some { dt with closure := none } := by
      rw [hcc, lookupKey_clearClosure_self, hdt]
      rfl
    exact ⟨hlk,
      by rw [cancelTask_delayed_null (cancelTask s id).2 id _ hlk rfl],
      onRanPostedTask_null_eq _ id _ hlk rfl⟩

/-- Witness for C3 on a concrete state: one delayed task with a live
callback. -/
theorem C3_witness :
    lookupKey sampleDelayedState.ioTasks 1 = none ∧
    (((cancelTask sampleDelayedState 1).1 = true ↔
       (1 : Nat) ≠ kTaskIdNull ∧
         ∃ dt, lookupKey sampleDelayedState.delayedTasks 1 = some dt ∧
           dt.closure ≠ none) ∧
     (∀ dt, lookupKey sampleDelayedState.delayedTasks 1 = some dt →
       dt.closure ≠ none → (1 : Nat) ≠ kTaskIdNull →
       lookupKey (cancelTask sampleDelayedState 1).2.delayedTasks 1
         = some { dt with closure := none } ∧
       (cancelTask (cancelTask sampleDelayedState 1).2 1).1 = false ∧
       onRanPostedTask (cancelTask sampleDelayedState 1).2 1 =
         { (cancelTask sampleDelayedState 1).2 with
           delayedTasks := eraseKey (cancelTask sampleDelayedState 1).2.delayedTasks 1 })) :=
  ⟨by decide,
    C3_cancel_delayed_success_iff_and_at_most_once sampleDelayedState 1 (by decide)⟩

/-- A persistent watch whose callback does not cancel the watch's own id
survives a firing, with both stores' bindings for that id as before. -/
theorem persistentFire_keep (s : LoopState) (id : Nat) (io : IOTask)
    (hio : lookupKey s.ioTasks id = some io)
    (hpers : io.persistent = true)
    (hnc : Action.cancel id ∉ io.closure)
    (hd : lookupKey s.delayedTasks id = none) :
    lookupKey (onFileReady s id).ioTasks id = some io ∧
    lookupKey (onFileReady s id).delayedTasks id = none := by
  rw [onFileReady_persistent_eq s id io hio hpers]
  have hacts : ∀ j, Action.cancel j ∈ io.closure → j ≠ id := by
    intro j hj he
    exact hnc (he ▸ hj)
  have h1 := runActions_io_keep io.closure s id io hacts hio
  have h2 := runActions_delayed_none io.closure s id hd
  by_cases hro : (runActions s io.closure).runOnce <;> simp [hro, h1, h2]

/-- **C7**: a persistent descriptor watch survives each firing (the
record stays in the store, so it fires again on repeated readiness
events), until `CancelTask` succeeds, erasing the record and its
subscription; after that a readiness dispatch for the id is a no-op even
if the descriptor remains ready. -/
theorem C7_persistent_watch_fires_until_cancel
    (s : LoopState) (id : Nat) (io : IOTask)
    (hio : lookupKey s.ioTasks id = some io)
    (hpers : io.persistent = true)
    (hnc : Action.cancel id ∉ io.closure)
    (hd : lookupKey s.delayedTasks id = none)
    (h0 : id ≠ kTaskIdNull) :
    lookupKey (onFileReady s id).ioTasks id = some io ∧
    lookupKey (onFileReady (onFileReady s id) id).ioTasks id = some io ∧
    (cancelTask s id).1 = true ∧
    lookupKey (cancelTask s id).2.ioTasks id = none ∧
    onFileReady (cancelTask s id).2 id = (cancelTask s id).2 := by
  obtain ⟨h1, h2⟩ := persistentFire_keep s id io hio hpers hnc hd
  obtain ⟨h1b, _⟩ := persistentFire_keep (onFileReady s id) id io h1 hpers hnc h2
  have hcc : cancelTask s id = (true, { s with ioTasks := eraseKey s.ioTasks id }) := by
    unfold cancelTask
    simp [h0, hd, hio]
  have herase : lookupKey (cancelTask s id).2.ioTasks id = none := by
    rw [hcc]
    exact lookupKey_eraseKey_self _ _
  exact ⟨h1, h1b, by rw [hcc], herase, onFileReady_not_found _ _ herase⟩

/-- Witness for C7 on a concrete state: one persistent watch with a
do-nothing callback. -/
theorem C7_witness :
    lookupKey samplePersistentState.ioTasks 1 = some samplePersistentTask ∧
    samplePersistentTask.persistent = true ∧
    Action.cancel 1 ∉ samplePersistentTask.closure ∧
    lookupKey samplePersistentState.delayedTasks 1 = none ∧
    (1 : Nat) ≠ kTaskIdNull ∧
    (lookupKey (onFileReady samplePersistentState 1).ioTasks 1 = some samplePersistentTask ∧
     lookupKey (onFileReady (onFileReady samplePersistentState 1) 1).ioTasks 1
       = some samplePersistentTask ∧
     (cancelTask samplePersistentState 1).1 = true ∧
     lookupKey (cancelTask samplePersistentState 1).2.ioTasks 1 = none ∧
     onFileReady (cancelTask samplePersistentState 1).2 1
       = (cancelTask samplePersistentState 1).2) :=
  ⟨by decide, by decide, by decide, by decide, by decide,
    C7_persistent_watch_fires_until_cancel samplePersistentState 1 samplePersistentTask
      (by decide) (by decide) (by decide) (by decide) (by decide)⟩

end BaseMessageLoop

namespace BaseMessageLoop

/-- The delayed-task fire path clears the run-once flag and requests the
underlying loop to stop once the callback has completed. -/
theorem delayedFire_clears_runOnce (s : LoopState) (id : Nat) (dt : DelayedTask)
    (acts : Closure) (hro : s.runOnce = true)
    (h : lookupKey s.delayedTasks id = some dt) (hc : dt.closure = some acts) :
    (onRanPostedTask s id).runOnce = false ∧ (onRanPostedTask s id).quit = true := by
  rw [onRanPostedTask_some_eq s id dt acts h hc]
  obtain ⟨g1, _, _⟩ :=
    runActions_state acts { s with delayedTasks := clearClosure s.delayedTasks id }
  have hro2 : (runActions { s with delayedTasks := clearClosure s.delayedTasks id }
      acts).runOnce = true := by
    rw [g1]; exact hro
  simp [hro2]

/-- The watch fire path (persistent or one-shot) clears the run-once
flag and requests the underlying loop to stop. -/
theorem ioFire_clears_runOnce (s : LoopState) (id : Nat) (io : IOTask)
    (hro : s.runOnce = true) (h : lookupKey s.ioTasks id = some io) :
    (onFileReady s id).runOnce = false ∧ (onFileReady s id).quit = true := by
  cases hp : io.persistent
  · rw [onFileReady_oneShot_eq s id io h hp]
    obtain ⟨g1, _, _⟩ :=
      runActions_state io.closure { s with ioTasks := eraseKey s.ioTasks id }
    have hro2 : (runActions { s with ioTasks := eraseKey s.ioTasks id }
        io.closure).runOnce = true := by
      rw [g1]; exact hro
    simp [hro2]
  · rw [onFileReady_persistent_eq s id io h hp]
    obtain ⟨g1, _, _⟩ := runActions_state io.closure s
    have hro2 : (runActions s io.closure).runOnce = true := by
      rw [g1]; exact hro
    simp [hro2]

/-- **C6**: `RunOnce` sets the run-once flag and drives the underlying
loop once; if no notification was delivered the flag survives, is
cleared, and "nothing ran" (`false`) is reported; the fire paths for
delayed tasks and watches clear the flag and request a stop after the
callback completes, so when the first delivered notification fires a
live delayed task, `RunOnce` reports `true` and the remaining
notifications are not processed (exactly one unit of work ran). -/
theorem C6_runOnce_reports_one_unit_of_work
    (s : LoopState) (mb : Bool) (id id2 : Nat) (dt : DelayedTask)
    (acts : Closure) (io : IOTask) (rest : List Event)
    (hro : s.runOnce = true)
    (hdt : lookupKey s.delayedTasks id = some dt)
    (hc : dt.closure = some acts)
    (hio : lookupKey s.ioTasks id2 = some io) :
    runOnce s mb [] = (false, { s with runOnce := false }) ∧
    ((onRanPostedTask s id).runOnce = false ∧ (onRanPostedTask s id).quit = true) ∧
    ((onFileReady s id2).runOnce = false ∧ (onFileReady s id2).quit = true) ∧
    runOnce s mb (Event.timerFired id :: rest) = runOnce s mb [Event.timerFired id] ∧
    (runOnce s mb (Event.timerFired id :: rest)).1 = true := by
  refine ⟨?_, delayedFire_clears_runOnce s id dt acts hro hdt hc,
    ioFire_clears_runOnce s id2 io hro hio, ?_, ?_⟩
  · cases s
    simp [runOnce, runEvents]
  · obtain ⟨hr, hq⟩ := delayedFire_clears_runOnce { s with runOnce := true } id dt acts
      rfl hdt hc
    unfold runOnce
    have heq : runEvents { s with runOnce := true } (Event.timerFired id :: rest)
        = runEvents { s with runOnce := true } [Event.timerFired id] := by
      simp [runEvents, dispatchEvent, hq]
    rw [heq]
  · obtain ⟨hr, hq⟩ := delayedFire_clears_runOnce { s with runOnce := true } id dt acts
      rfl hdt hc
    simp [runOnce, runEvents, dispatchEvent, hq, hr]

/-- Witness for C6 on a concrete state: the run-once flag set, one
delayed task (id 1) and one persistent watch (id 2) live. -/
theorem C6_witness :
    sampleRunState.runOnce = true ∧
    lookupKey sampleRunState.delayedTasks 1 = some sampleDelayed ∧
    sampleDelayed.closure = some [Action.cancel 1] ∧
    lookupKey sampleRunState.ioTasks 2 = some sampleRunTask ∧
    (runOnce sampleRunState false [] = (false, { sampleRunState with runOnce := false }) ∧
     ((onRanPostedTask sampleRunState 1).runOnce = false ∧
      (onRanPostedTask sampleRunState 1).quit = true) ∧
     ((onFileReady sampleRunState 2).runOnce = false ∧
      (onFileReady sampleRunState 2).quit = true) ∧
     runOnce sampleRunState false [Event.timerFired 1, Event.fdReady 2]
       = runOnce sampleRunState false [Event.timerFired 1] ∧
     (runOnce sampleRunState false [Event.timerFired 1, Event.fdReady 2]).1 = true) :=
  ⟨by decide, by decide, by decide, by decide,
    C6_runOnce_reports_one_unit_of_work sampleRunState false 1 2 sampleDelayed
      [Action.cancel 1] sampleRunTask [Event.fdReady 2] (by decide) (by decide)
      (by decide) (by decide)⟩

end BaseMessageLoop

theorem eraseKey_append_self {κ α : Type} [DecidableEq κ] (m : List (κ × α))
    (k : κ) (v : α) (h : lookupKey m k = none) : eraseKey (m ++ [(k, v)]) k = m := by
  induction m with
  | nil => simp [eraseKey]
  | cons p rest ih =>
    obtain ⟨k2, w⟩ := p
    by_cases h2 : k2 = k
    · simp [lookupKey, h2] at h
    · simp only [lookupKey, if_neg h2] at h
      simp [eraseKey, h2, ih h]

theorem emplaceKey_of_none {κ α : Type} [DecidableEq κ] (m : List (κ × α))
    (k : κ) (v : α) (h : lookupKey m k = none) : emplaceKey m k v = m ++ [(k, v)] := by
  unfold emplaceKey
  rw [h]

namespace BaseMessageLoop

theorem nextTaskIdGo_spec (fuel : Nat) (delayed : List (Nat × DelayedTask))
    (io : List (Nat × IOTask)) (last res : Nat)
    (h : nextTaskIdGo fuel last delayed io = some res) :
    res ≠ 0 ∧ lookupKey delayed res = none ∧ lookupKey io res = none := by
  induction fuel generalizing last with
  | zero => simp [nextTaskIdGo] at h
  | succ fuel ih =>
    simp only [nextTaskIdGo] at h
    split at h
    · rename_i hcond
      injection h with h2
      subst h2
      exact hcond
    · exact ih _ h

/-- `NextTaskId` returns a non-sentinel id absent from both stores, and
only advances `last_id_`. -/
theorem nextTaskId_spec (s : LoopState) (id : Nat) (s1 : LoopState)
    (h : nextTaskId s = some (id, s1)) :
    id ≠ kTaskIdNull ∧ lookupKey s.delayedTasks id = none ∧
    lookupKey s.ioTasks id = none ∧ s1 = { s with lastId := id } := by
  unfold nextTaskId at h
  split at h
  · exact absurd h (by simp)
  · rename_i res hgo
    injection h with h2
    obtain ⟨h3, h4⟩ := Prod.mk.inj h2
    subst h3
    obtain ⟨g1, g2, g3⟩ := nextTaskIdGo_spec _ _ _ _ _ hgo
    exact ⟨by simpa [kTaskIdNull] using g1, g2, g3, h4.symm⟩

theorem storeInv_of_eq (s s1 : LoopState) (hd : s1.delayedTasks = s.delayedTasks)
    (hio : s1.ioTasks = s.ioTasks) (h : StoreInv s) : StoreInv s1 := by
  unfold StoreInv at *
  rw [hd, hio]
  exact h

theorem storeInv_insert_delayed (s : LoopState) (id : Nat) (dt : DelayedTask)
    (hd : lookupKey s.delayedTasks id = none) (hio : lookupKey s.ioTasks id = none)
    (h : StoreInv s) :
    ((s.delayedTasks ++ [(id, dt)]).map Prod.fst).Nodup ∧
    (s.ioTasks.map Prod.fst).Nodup ∧
    ∀ k ∈ (s.delayedTasks ++ [(id, dt)]).map Prod.fst,
      lookupKey s.ioTasks k = none := by
  obtain ⟨h1, h2, h3⟩ := h
  refine ⟨?_, h2, ?_⟩
  · rw [List.map_append]
    simp [List.nodup_append, h1, (lookupKey_eq_none_iff _ _).1 hd]
  · intro k hk
    rw [List.map_append, List.mem_append] at hk
    rcases hk with hk | hk
    · exact h3 k hk
    · simp only [List.map_cons, List.map_nil, List.mem_singleton] at hk
      subst hk
      exact hio

theorem storeInv_insert_io (s : LoopState) (id : Nat) (io : IOTask)
    (hd : lookupKey s.delayedTasks id = none) (hio : lookupKey s.ioTasks id = none)
    (h : StoreInv s) :
    (s.delayedTasks.map Prod.fst).Nodup ∧
    ((s.ioTasks ++ [(id, io)]).map Prod.fst).Nodup ∧
    ∀ k ∈ s.delayedTasks.map Prod.fst,
      lookupKey (s.ioTasks ++ [(id, io)]) k = none := by
  obtain ⟨h1, h2, h3⟩ := h
  refine ⟨h1, ?_, ?_⟩
  · rw [List.map_append]
    simp [List.nodup_append, h2, (lookupKey_eq_none_iff _ _).1 hio]
  · intro k hk
    have hne : id ≠ k := by
      intro he
      subst he
      exact ((lookupKey_eq_none_iff _ _).1 hd) hk
    rw [lookupKey_append_ne _ _ _ _ hne]
    exact h3 k hk

end BaseMessageLoop

namespace BaseMessageLoop

/-- **C4**: every task id allocated by `NextTaskId` (used by both
`PostDelayedTask` and `WatchFileDescriptor`) is non-sentinel and absent
from both stores at the moment of allocation, and consequently both
registration operations preserve the uniqueness invariant that at most
one live record (delayed or watch) is bound to a given id. -/
theorem C4_allocated_ids_fresh_and_unique (s : LoopState) :
    (∀ id s1, nextTaskId s = some (id, s1) →
      id ≠ kTaskIdNull ∧ lookupKey s.delayedTasks id = none ∧
        lookupKey s.ioTasks id = none) ∧
    (∀ fh task b id s1, postDelayedTask s fh task b = some (id, s1) →
      StoreInv s → StoreInv s1) ∧
    (∀ fh fd mode p task sch id s1,
      watchFileDescriptor s fh fd mode p task sch = some (id, s1) →
      StoreInv s → StoreInv s1) := by
  refine ⟨fun id s1 h => ?_, fun fh task b id s1 h hinv => ?_,
    fun fh fd mode p task sch id s1 h hinv => ?_⟩
  · obtain ⟨g1, g2, g3, _⟩ := nextTaskId_spec s id s1 h
    exact ⟨g1, g2, g3⟩
  · simp only [postDelayedTask] at h
    split at h
    · exact absurd h (by simp)
    · rename_i tid s2 hnext
      obtain ⟨g1, g2, g3, g4⟩ := nextTaskId_spec s tid s2 hnext
      subst g4
      split at h
      · injection h with h2
        obtain ⟨h3, h4⟩ := Prod.mk.inj h2
        subst h4
        exact storeInv_of_eq s _ rfl rfl hinv
      · injection h with h2
        obtain ⟨h3, h4⟩ := Prod.mk.inj h2
        subst h4
        unfold StoreInv
        have he : emplaceKey ({ s with lastId := tid } : LoopState).delayedTasks tid
            (⟨fh, tid, some task⟩ : DelayedTask)
            = s.delayedTasks ++ [(tid, (⟨fh, tid, some task⟩ : DelayedTask))] :=
          emplaceKey_of_none _ _ _ g2
        simp only [he]
        exact storeInv_insert_delayed s tid _ g2 g3 hinv
  · simp only [watchFileDescriptor] at h
    split at h
    · injection h with h2
      obtain ⟨h3, h4⟩ := Prod.mk.inj h2
      subst h4
      exact storeInv_of_eq s _ rfl rfl hinv
    · split at h
      · injection h with h2
        obtain ⟨h3, h4⟩ := Prod.mk.inj h2
        subst h4
        exact storeInv_of_eq s _ rfl rfl hinv
      · split at h
        · exact absurd h (by simp)
        · rename_i tid s2 hnext
          obtain ⟨g1, g2, g3, g4⟩ := nextTaskId_spec s tid s2 hnext
          subst g4
          have he : emplaceKey ({ s with lastId := tid } : LoopState).ioTasks tid
              (⟨fh, tid, p, task⟩ : IOTask)
              = s.ioTasks ++ [(tid, (⟨fh, tid, p, task⟩ : IOTask))] :=
            emplaceKey_of_none _ _ _ g3
          split at h
          · injection h with h2
            obtain ⟨h3, h4⟩ := Prod.mk.inj h2
            subst h4
            refine storeInv_of_eq s _ rfl ?_ hinv
            show eraseKey (emplaceKey s.ioTasks tid _) tid = s.ioTasks
            rw [emplaceKey_of_none _ _ _ g3]
            exact eraseKey_append_self _ _ _ g3
          · injection h with h2
            obtain ⟨h3, h4⟩ := Prod.mk.inj h2
            subst h4
            unfold StoreInv
            simp only [he]
            exact storeInv_insert_io s tid _ g2 g3 hinv

/-- Witness for C4 on the empty state: allocation returns id 1, fresh,
and registering a delayed task preserves the invariant. -/
theorem C4_witness :
    nextTaskId emptyState = some (1, { emptyState with lastId := 1 }) ∧
    postDelayedTask emptyState "here" [] true
      = some (1, { emptyState with lastId := 1, delayedTasks := [(1, ⟨"here", 1, some []⟩)] }) ∧
    StoreInv emptyState ∧
    ((1 : Nat) ≠ kTaskIdNull ∧ lookupKey emptyState.delayedTasks 1 = none ∧
      lookupKey emptyState.ioTasks 1 = none) ∧
    StoreInv { emptyState with lastId := 1, delayedTasks := [(1, ⟨"here", 1, some []⟩)] } :=
  ⟨by decide, by decide, by unfold StoreInv; decide,
    (C4_allocated_ids_fresh_and_unique emptyState).1 1
      { emptyState with lastId := 1 } (by decide),
    (C4_allocated_ids_fresh_and_unique emptyState).2.1 "here" [] true 1
      { emptyState with lastId := 1, delayedTasks := [(1, ⟨"here", 1, some []⟩)] }
      (by decide) (by unfold StoreInv; decide)⟩

end BaseMessageLoop

namespace BaseMessageLoop

/-- **C5**: every rejected registration — `PostDelayedTask` when the
underlying timer refuses to arm, or `WatchFileDescriptor` with a
negative descriptor, an interest mode other than read/write, or a
refused subscription — returns the sentinel task id and leaves both
stores unchanged (no partial state). -/
theorem C5_rejected_registration_no_partial_state (s : LoopState) :
    (∀ fh task id s1, postDelayedTask s fh task false = some (id, s1) →
      id = kTaskIdNull ∧ s1.delayedTasks = s.delayedTasks ∧
        s1.ioTasks = s.ioTasks) ∧
    (∀ fh fd mode p task sch id s1, fd < 0 →
      watchFileDescriptor s fh fd mode p task sch = some (id, s1) →
      id = kTaskIdNull ∧ s1 = s) ∧
    (∀ fh fd p task sch id s1,
      watchFileDescriptor s fh fd WatchMode.other p task sch = some (id, s1) →
      id = kTaskIdNull ∧ s1 = s) ∧
    (∀ fh fd mode p task id s1,
      watchFileDescriptor s fh fd mode p task false = some (id, s1) →
      id = kTaskIdNull ∧ s1.delayedTasks = s.delayedTasks ∧
        s1.ioTasks = s.ioTasks) := by
  refine ⟨fun fh task id s1 h => ?_, fun fh fd mode p task sch id s1 hfd h => ?_,
    fun fh fd p task sch id s1 h => ?_, fun fh fd mode p task id s1 h => ?_⟩
  · simp only [postDelayedTask] at h
    split at h
    · exact absurd h (by simp)
    · rename_i tid s2 hnext
      obtain ⟨g1, g2, g3, g4⟩ := nextTaskId_spec s tid s2 hnext
      subst g4
      simp only [Bool.not_false, if_pos trivial] at h
      injection h with h2
      obtain ⟨h3, h4⟩ := Prod.mk.inj h2
      subst h4
      exact ⟨h3.symm, rfl, rfl⟩
  · simp only [watchFileDescriptor] at h
    rw [if_pos hfd] at h
    injection h with h2
    obtain ⟨h3, h4⟩ := Prod.mk.inj h2
    exact ⟨h3.symm, h4.symm⟩
  · simp only [watchFileDescriptor] at h
    split at h
    · injection h with h2
      obtain ⟨h3, h4⟩ := Prod.mk.inj h2
      exact ⟨h3.symm, h4.symm⟩
    · rw [if_pos trivial] at h
      injection h with h2
      obtain ⟨h3, h4⟩ := Prod.mk.inj h2
      exact ⟨h3.symm, h4.symm⟩
  · simp only [watchFileDescriptor] at h
    split at h
    · injection h with h2
      obtain ⟨h3, h4⟩ := Prod.mk.inj h2
      subst h4
      exact ⟨h3.symm, rfl, rfl⟩
    · split at h
      · injection h with h2
        obtain ⟨h3, h4⟩ := Prod.mk.inj h2
        subst h4
        exact ⟨h3.symm, rfl, rfl⟩
      · split at h
        · exact absurd h (by simp)
        · rename_i tid s2 hnext
          obtain ⟨g1, g2, g3, g4⟩ := nextTaskId_spec s tid s2 hnext
          subst g4
          simp only [Bool.not_false, if_pos trivial] at h
          injection h with h2
          obtain ⟨h3, h4⟩ := Prod.mk.inj h2
          subst h4
          refine ⟨h3.symm, rfl, ?_⟩
          show eraseKey (emplaceKey s.ioTasks tid _) tid = s.ioTasks
          rw [emplaceKey_of_none _ _ _ g3]
          exact eraseKey_append_self _ _ _ g3

/-- Witness for C5 on the empty state: a refused timer arming, a
negative descriptor, an invalid interest mode and a refused
subscription each return the sentinel id with the stores unchanged. -/
theorem C5_witness :
    postDelayedTask emptyState "here" [] false
      = some (kTaskIdNull, { emptyState with lastId := 1 }) ∧
    watchFileDescriptor emptyState "here" (-1) WatchMode.kWatchRead true [] true
      = some (kTaskIdNull, emptyState) ∧
    watchFileDescriptor emptyState "here" 3 WatchMode.other true [] true
      = some (kTaskIdNull, emptyState) ∧
    watchFileDescriptor emptyState "here" 3 WatchMode.kWatchRead true [] false
      = some (kTaskIdNull, { emptyState with lastId := 1 }) ∧
    (kTaskIdNull = kTaskIdNull ∧
      ({ emptyState with lastId := 1 } : LoopState).delayedTasks
        = emptyState.delayedTasks ∧
      ({ emptyState with lastId := 1 } : LoopState).ioTasks = emptyState.ioTasks) ∧
    (kTaskIdNull = kTaskIdNull ∧
      ({ emptyState with lastId := 1 } : LoopState).delayedTasks
        = emptyState.delayedTasks ∧
      ({ emptyState with lastId := 1 } : LoopState).ioTasks = emptyState.ioTasks) :=
  ⟨by decide, by decide, by decide, by decide,
    (C5_rejected_registration_no_partial_state emptyState).1 "here" [] kTaskIdNull
      { emptyState with lastId := 1 } (by decide),
    (C5_rejected_registration_no_partial_state emptyState).2.2.2 "here" 3
      WatchMode.kWatchRead true [] kTaskIdNull
      { emptyState with lastId := 1 } (by decide)⟩

end BaseMessageLoop

namespace FileUtils

/-- `path.AddExtension(suffix)` is a strictly longer string than `path`,
so the temp file never aliases the destination. -/
theorem tempName_ne_path (path suffix : String) : path ++ "." ++ suffix ≠ path := by
  intro h
  have hl := congrArg String.length h
  rw [String.length_append, String.length_append] at hl
  have h1 : ("." : String).length = 1 := rfl
  omega

theorem writeLoop_done_le (size : Nat) (results : List Int) (position written : Nat)
    (h : writeLoop size position results = some (WriteOutcome.done written)) :
    size ≤ written := by
  induction results generalizing position with
  | nil =>
    rw [writeLoop] at h
    split at h
    · rename_i hle
      injection h with h2
      injection h2 with h3
      subst h3
      exact hle
    · exact absurd h (by simp)
  | cons r rest ih =>
    rw [writeLoop] at h
    split at h
    · rename_i hle
      injection h with h2
      injection h2 with h3
      subst h3
      exact hle
    · split at h
      · simp at h
      · exact ih _ h

/-- **C8**: `WriteToFileAtomic` is all-or-nothing: when it reports
success the destination holds exactly the full new contents (and the
temporary file is gone, having been renamed over the destination); on
any failure — directory creation, suffix generation, temp-file open,
write, sync, close, or rename — the destination binding is unchanged. -/
theorem C8_writeToFileAtomic_all_or_nothing (fs : FileSystem) (path : String)
    (data : Bytes) (mode : Nat) (env : AtomicEnv) (ok : Bool) (fs2 : FileSystem)
    (h : writeToFileAtomic fs path data mode env = some (ok, fs2)) :
    (ok = true →
      lookupKey fs2 path = some (Entity.regular env.euid env.egid mode data) ∧
      lookupKey fs2 (path ++ "." ++ env.randomSuffix) = none) ∧
    (ok = false → lookupKey fs2 path = lookupKey fs path) := by
  have hne := tempName_ne_path path env.randomSuffix
  simp only [writeToFileAtomic] at h
  split at h
  · injection h with h2
    obtain ⟨h3, h4⟩ := Prod.mk.inj h2
    subst h4
    exact ⟨fun hT => absurd h3 (by simp [hT]), fun _ => rfl⟩
  · split at h
    · injection h with h2
      obtain ⟨h3, h4⟩ := Prod.mk.inj h2
      subst h4
      exact ⟨fun hT => absurd h3 (by simp [hT]), fun _ => rfl⟩
    · split at h
      · injection h with h2
        obtain ⟨h3, h4⟩ := Prod.mk.inj h2
        subst h4
        refine ⟨fun hT => absurd h3 (by simp [hT]),
          fun _ => lookupKey_eraseKey_ne _ _ _ hne⟩
      · split at h
        · exact absurd h (by simp)
        · injection h with h2
          obtain ⟨h3, h4⟩ := Prod.mk.inj h2
          subst h4
          refine ⟨fun hT => absurd h3 (by simp [hT]),
            fun _ => lookupKey_eraseKey_ne _ _ _ hne⟩
        · rename_i written hloop
          have hsize : data.length ≤ written := writeLoop_done_le _ _ _ _ hloop
          have htake : data.take written = data := List.take_of_length_le hsize
          split at h
          · injection h with h2
            obtain ⟨h3, h4⟩ := Prod.mk.inj h2
            subst h4
            refine ⟨fun hT => absurd h3 (by simp [hT]), fun _ => ?_⟩
            rw [lookupKey_eraseKey_ne _ _ _ hne, lookupKey_setFile_ne _ _ _ _ hne]
          · split at h
            · injection h with h2
              obtain ⟨h3, h4⟩ := Prod.mk.inj h2
              subst h4
              refine ⟨fun hT => absurd h3 (by simp [hT]), fun _ => ?_⟩
              rw [lookupKey_eraseKey_ne _ _ _ hne, lookupKey_setFile_ne _ _ _ _ hne]
            · split at h
              · injection h with h2
                obtain ⟨h3, h4⟩ := Prod.mk.inj h2
                subst h4
                refine ⟨fun hT => absurd h3 (by simp [hT]), fun _ => ?_⟩
                rw [lookupKey_eraseKey_ne _ _ _ hne, lookupKey_setFile_ne _ _ _ _ hne]
              · injection h with h2
                obtain ⟨h3, h4⟩ := Prod.mk.inj h2
                subst h4
                refine ⟨fun _ => ⟨?_, ?_⟩, fun hF => absurd h3 (by simp [hF])⟩
                · rw [htake, lookupKey_setFile_self]
                · rw [lookupKey_setFile_ne _ _ _ _ (Ne.symm hne)]
                  exact lookupKey_eraseKey_self _ _

/-- Witness for C8: writing three bytes atomically over an empty
filesystem with an all-succeeding environment. -/
theorem C8_witness :
    writeToFileAtomic [] "f" [7, 8, 9] 420 sampleAtomicEnv
      = some (true, [("f", Entity.regular 0 0 420 [7, 8, 9])]) ∧
    ((true = true →
      lookupKey [("f", Entity.regular 0 0 420 [7, 8, 9])] "f"
        = some (Entity.regular sampleAtomicEnv.euid sampleAtomicEnv.egid 420 [7, 8, 9]) ∧
      lookupKey [("f", Entity.regular 0 0 420 [7, 8, 9])]
        ("f" ++ "." ++ sampleAtomicEnv.randomSuffix) = none) ∧
     (true = false →
      lookupKey [("f", Entity.regular 0 0 420 [7, 8, 9])] "f"
        = lookupKey ([] : FileSystem) "f")) :=
  ⟨by decide,
    C8_writeToFileAtomic_all_or_nothing [] "f" [7, 8, 9] 420 sampleAtomicEnv true
      [("f", Entity.regular 0 0 420 [7, 8, 9])] (by decide)⟩

end FileUtils

namespace FileUtils

theorem lookupKey_chmodFile_self (fs : FileSystem) (p : String) (m : Nat) :
    lookupKey (chmodFile fs p m) p =
      Option.map (fun e => match e with
        | Entity.regular u g _ c => Entity.regular u g m c
        | e2 => e2) (lookupKey fs p) := by
  induction fs with
  | nil => rfl
  | cons q rest ih =>
    obtain ⟨k, e⟩ := q
    by_cases h : k = p <;> simp [chmodFile, lookupKey, h, ih]

theorem lookupKey_chmodFile_ne (fs : FileSystem) (p q : String) (m : Nat)
    (h : p ≠ q) : lookupKey (chmodFile fs p m) q = lookupKey fs q := by
  induction fs with
  | nil => rfl
  | cons r rest ih =>
    obtain ⟨k, e⟩ := r
    by_cases h3 : k = p
    · subst h3
      simp [chmodFile, lookupKey, h, ih]
    · by_cases h4 : k = q <;> simp [chmodFile, lookupKey, h3, h4, ih, Ne.symm h]

/-- A `kRegularFile` outcome means the path held a matching regular
file and nothing was changed. -/
theorem regularFileOrDelete_kRegularFile (fs : FileSystem) (path : String)
    (uid gid : Nat) (env : TouchEnv) (fs1 : FileSystem)
    (h : regularFileOrDelete fs path uid gid env
      = (RegularFileOrDeleteResult.kRegularFile, fs1)) :
    fs1 = fs ∧ ∃ m c, lookupKey fs path = some (Entity.regular uid gid m c) := by
  unfold regularFileOrDelete at h
  split at h
  · simp at h
  · rename_i u g m c heq
    split at h
    · rename_i hmatch
      injection h with h2 h3
      obtain ⟨rfl, rfl⟩ := hmatch
      exact ⟨h3.symm, m, c, heq⟩
    · split at h <;> simp at h
  · split at h <;> simp at h

/-- A `kEmpty` outcome means the path now holds nothing and no other
path was touched. -/
theorem regularFileOrDelete_kEmpty (fs : FileSystem) (path : String)
    (uid gid : Nat) (env : TouchEnv) (fs1 : FileSystem)
    (h : regularFileOrDelete fs path uid gid env
      = (RegularFileOrDeleteResult.kEmpty, fs1)) :
    lookupKey fs1 path = none ∧
    ∀ q, q ≠ path → lookupKey fs1 q = lookupKey fs q := by
  unfold regularFileOrDelete at h
  split at h
  · rename_i heq
    injection h with h2 h3
    subst h3
    exact ⟨heq, fun q hq => rfl⟩
  · rename_i u g m c heq
    split at h
    · simp at h
    · split at h
      · injection h with h2 h3
        subst h3
        exact ⟨lookupKey_eraseKey_self _ _,
          fun q hq => lookupKey_eraseKey_ne _ _ _ (Ne.symm hq)⟩
      · simp at h
  · rename_i heq
    split at h
    · injection h with h2 h3
      subst h3
      exact ⟨lookupKey_eraseKey_self _ _,
        fun q hq => lookupKey_eraseKey_ne _ _ _ (Ne.symm hq)⟩
    · simp at h

/-- `TouchFileInternal` reporting success without creating a file means
a matching regular file was already there and the filesystem is
untouched. -/
theorem touchFileInternal_existing (fs : FileSystem) (path : String)
    (uid gid : Nat) (env : TouchEnv) (fs1 : FileSystem)
    (h : touchFileInternal fs path uid gid env = (true, fs1, false)) :
    fs1 = fs ∧ ∃ m c, lookupKey fs path = some (Entity.regular uid gid m c) := by
  unfold touchFileInternal at h
  split at h
  · simp at h
  · rename_i fs3 heq
    injection h with h2 h3
    injection h3 with h4 h5
    subst h4
    exact regularFileOrDelete_kRegularFile fs path uid gid env fs3 heq
  · rename_i fs3 heq
    split at h
    · simp at h
    · split at h
      · simp at h
      · simp at h

/-- `TouchFileInternal` reporting success with a created file means the
path now holds a fresh empty owner-only file owned by the calling
process, and no other path was touched. -/
theorem touchFileInternal_created (fs : FileSystem) (path : String)
    (uid gid : Nat) (env : TouchEnv) (fs1 : FileSystem)
    (h : touchFileInternal fs path uid gid env = (true, fs1, true)) :
    lookupKey fs1 path = some (Entity.regular env.euid env.egid kPermissions600 []) ∧
    ∀ q, q ≠ path → lookupKey fs1 q = lookupKey fs q := by
  unfold touchFileInternal at h
  split at h
  · simp at h
  · simp at h
  · rename_i fs3 heq
    obtain ⟨hempty, hframe⟩ := regularFileOrDelete_kEmpty fs path uid gid env fs3 heq
    split at h
    · simp at h
    · split at h
      · simp at h
      · injection h with h2 h3
        injection h3 with h4 h5
        subst h4
        refine ⟨lookupKey_setFile_self _ _ _, fun q hq => ?_⟩
        rw [lookupKey_setFile_ne _ _ _ _ (Ne.symm hq)]
        exact hframe q hq

end FileUtils

namespace FileUtils

/-- Counterexample to **C9** as stated: on the empty filesystem, run as
root (euid 0 / egid 0) and asked for a file owned by uid 1000 / gid
1000, `TouchFile` reports success, yet the file it created is owned by
the calling process (0/0), not by the requested identity — the code
never `chown`s the file it creates. -/
theorem C9_counterexample :
    (touchFile [] "f" 420 1000 1000 sampleTouchEnv).1 = true ∧
    lookupKey (touchFile [] "f" 420 1000 1000 sampleTouchEnv).2 "f"
      = some (Entity.regular 0 0 420 []) ∧
    ¬ (∃ m c, lookupKey (touchFile [] "f" 420 1000 1000 sampleTouchEnv).2 "f"
        = some (Entity.regular 1000 1000 m c)) := by
  refine ⟨by decide, by decide, ?_⟩
  rintro ⟨m, c, hm⟩
  rw [show lookupKey (touchFile [] "f" 420 1000 1000 sampleTouchEnv).2 "f"
      = some (Entity.regular 0 0 420 []) from by decide] at hm
  simp only [Option.some.injEq, Entity.regular.injEq] at hm
  obtain ⟨h1, -⟩ := hm
  exact absurd h1 (by decide)

/-- **C9 (amended)**: on success `TouchFile` ensures a regular file
exists at the path: either a regular file owned by the given uid/gid was
already there and is kept as-is, or the path now holds a freshly created
empty regular file with the requested permission bits, owned by the
calling process's effective uid/gid (not necessarily the requested
identity).  No other path is touched — in particular a symlink at the
path is itself replaced and its target never followed. -/
theorem C9_touchFile_success_amended (fs : FileSystem) (path : String)
    (perms uid gid : Nat) (env : TouchEnv) (fs2 : FileSystem)
    (h : touchFile fs path perms uid gid env = (true, fs2)) :
    ((∃ m c, lookupKey fs path = some (Entity.regular uid gid m c) ∧
        lookupKey fs2 path = some (Entity.regular uid gid m c)) ∨
      lookupKey fs2 path = some (Entity.regular env.euid env.egid perms [])) ∧
    (∀ q, q ≠ path → lookupKey fs2 q = lookupKey fs q) := by
  unfold touchFile at h
  split at h
  · simp at h
  · split at h
    · simp at h
    · rename_i fs1 created heq
      cases created
      · rw [if_neg (by simp)] at h
        injection h with h2 h3
        subst h3
        obtain ⟨hfe, m, c, hlook⟩ := touchFileInternal_existing fs path uid gid env fs1 heq
        subst hfe
        exact ⟨Or.inl ⟨m, c, hlook, hlook⟩, fun q hq => rfl⟩
      · rw [if_pos rfl] at h
        split at h
        · simp at h
        · injection h with h2 h3
          subst h3
          obtain ⟨hnew, hframe⟩ := touchFileInternal_created fs path uid gid env fs1 heq
          refine ⟨Or.inr ?_, fun q hq => ?_⟩
          · rw [lookupKey_chmodFile_self, hnew]
            rfl
          · rw [lookupKey_chmodFile_ne _ _ _ _ (Ne.symm hq)]
            exact hframe q hq

/-- Witness for the amended C9: touching a path holding a symlink, as
root, replaces the symlink by a fresh root-owned file and leaves the
link's target untouched. -/
theorem C9_witness :
    touchFile [("f", Entity.symlink "g"), ("g", Entity.regular 0 0 420 [1])]
      "f" 420 1000 1000 sampleTouchEnv
      = (true, [("g", Entity.regular 0 0 420 [1]), ("f", Entity.regular 0 0 420 [])]) ∧
    (((∃ m c, lookupKey [("f", Entity.symlink "g"), ("g", Entity.regular 0 0 420 [1])] "f"
        = some (Entity.regular 1000 1000 m c) ∧
        lookupKey [("g", Entity.regular 0 0 420 [1]), ("f", Entity.regular 0 0 420 [])] "f"
        = some (Entity.regular 1000 1000 m c)) ∨
      lookupKey [("g", Entity.regular 0 0 420 [1]), ("f", Entity.regular 0 0 420 [])] "f"
        = some (Entity.regular sampleTouchEnv.euid sampleTouchEnv.egid 420 [])) ∧
     (∀ q, q ≠ "f" →
       lookupKey [("g", Entity.regular 0 0 420 [1]), ("f", Entity.regular 0 0 420 [])] q
         = lookupKey [("f", Entity.symlink "g"), ("g", Entity.regular 0 0 420 [1])] q)) :=
  ⟨by decide,
    C9_touchFile_success_amended
      [("f", Entity.symlink "g"), ("g", Entity.regular 0 0 420 [1])] "f" 420 1000 1000
      sampleTouchEnv
      [("g", Entity.regular 0 0 420 [1]), ("f", Entity.regular 0 0 420 [])] (by decide)⟩

/-- **C10**: when a regular file owned by the given uid/gid already
exists at the path (and the requested permission bits are legal),
`TouchFile` reports success and performs no write at all: the whole
filesystem — contents, ownership and existing permission bits included —
is returned unchanged, and no `fchmod` is applied. -/
theorem C10_touchFile_existing_noop (fs : FileSystem) (path : String)
    (perms uid gid : Nat) (env : TouchEnv) (m : Nat) (c : Bytes)
    (hex : lookupKey fs path = some (Entity.regular uid gid m c))
    (hperm : ¬ kPermissions777 < perms) :
    touchFile fs path perms uid gid env = (true, fs) := by
  unfold touchFile
  rw [if_neg hperm]
  have hint : touchFileInternal fs path uid gid env = (true, fs, false) := by
    unfold touchFileInternal regularFileOrDelete
    rw [hex]
    simp
  rw [hint]
  rfl

/-- Witness for C10: an existing matching file (mode 0o640, some
contents) is left entirely unchanged. -/
theorem C10_witness :
    lookupKey [("f", Entity.regular 5 6 416 [1, 2])] "f"
      = some (Entity.regular 5 6 416 [1, 2]) ∧
    ¬ kPermissions777 < 420 ∧
    touchFile [("f", Entity.regular 5 6 416 [1, 2])] "f" 420 5 6 sampleTouchEnv
      = (true, [("f", Entity.regular 5 6 416 [1, 2])]) :=
  ⟨by decide, by decide,
    C10_touchFile_existing_noop [("f", Entity.regular 5 6 416 [1, 2])] "f" 420 5 6
      sampleTouchEnv 416 [1, 2] (by decide) (by decide)⟩

end FileUtils
